import Mathlib

/-!
Shallow embedding of the numerical core of the browser-based quantitative
finance toolkit: the Black-Scholes pricer (src/unnamed/part_001), the
Monte-Carlo simulation engine (src/lib/monte-carlo.js) and the portfolio
optimizer (the PortfolioOptimizer script embedded in src/index.html).

JavaScript numbers are modelled as real numbers; the two places where the
original can produce a non-finite value (the 0/0 in conditionalVaR and an
out-of-bounds array read) are modelled with Option, where `none` stands for
the NaN / undefined the JavaScript engine would produce.  The global
pseudo-random stream is passed explicitly: `generatePath` consumes a stream
of standard-normal draws (the outputs of boxMuller), and `boxMuller` itself
is modelled over a stream of uniform draws, with fuel standing in for the
unbounded do/while retry loop.
-/

noncomputable section

/-- JavaScript `String.prototype.toLowerCase()` for the ASCII option-type
tags used by the sources ('call', 'put', 'european', 'american'). -/
def jsToLower (s : String) : String := ⟨s.data.map Char.toLower⟩

namespace BlackScholes

/-- Coefficient a1 of the Abramowitz-Stegun erf approximation (part_001, line 13). -/
def a1 : ℝ := 0.254829592

/-- Coefficient a2 (part_001, line 14). -/
def a2 : ℝ := -0.284496736

/-- Coefficient a3 (part_001, line 15). -/
def a3 : ℝ := 1.421413741

/-- Coefficient a4 (part_001, line 16). -/
def a4 : ℝ := -1.453152027

/-- Coefficient a5 (part_001, line 17). -/
def a5 : ℝ := 1.061405429

/-- Coefficient p (part_001, line 18). -/
def pCoeff : ℝ := 0.3275911

/-- The Horner-form polynomial `(((((a5*t + a4)*t) + a3)*t + a2)*t + a1)*t`
appearing in `normalCDF` (part_001, line 24). -/
def erfPoly (t : ℝ) : ℝ := (((((a5 * t + a4) * t) + a3) * t + a2) * t + a1) * t

/-- `BlackScholes.normalCDF` (part_001, lines 12-27): rational approximation of
the standard normal CDF.  The input is scaled by `1/sqrt 2` and the sign split
`x < 0 ? -1 : 1` is taken exactly as in the source. -/
def normalCDF (x : ℝ) : ℝ :=
  let sgn : ℝ := if x < 0 then -1 else 1
  let y := |x| / Real.sqrt 2
  let t := 1 / (1 + pCoeff * y)
  let erfv := 1 - erfPoly t * Real.exp (-y * y)
  0.5 * (1 + sgn * erfv)

/-- `BlackScholes.normalPDF` (part_001, lines 34-36). -/
def normalPDF (x : ℝ) : ℝ := Real.exp (-0.5 * x * x) / Real.sqrt (2 * Real.pi)

/-- `BlackScholes.d1` (part_001, lines 47-49). -/
def d1 (S K r v T : ℝ) : ℝ :=
  (Real.log (S / K) + (r + 0.5 * v * v) * T) / (v * Real.sqrt T)

/-- `BlackScholes.d2` (part_001, lines 58-60). -/
def d2 (d1v v T : ℝ) : ℝ := d1v - v * Real.sqrt T

/-- The option-parameter record passed to `BlackScholes.calculate`. -/
structure BSParams where
  S : ℝ
  K : ℝ
  r : ℝ
  v : ℝ
  T : ℝ
  type : String

/-- The record returned by `BlackScholes.calculate`: price and Greeks. -/
structure PricingResult where
  price : ℝ
  delta : ℝ
  gamma : ℝ
  vega : ℝ
  theta : ℝ
  rho : ℝ

/-- `BlackScholes.calculateExpired` (part_001, lines 131-143). -/
def calculateExpired (p : BSParams) : PricingResult :=
  let isCall := jsToLower p.type == "call"
  { price := max 0 (if isCall then p.S - p.K else p.K - p.S)
    delta := if isCall then (if p.K < p.S then 1 else 0) else (if p.S < p.K then -1 else 0)
    gamma := 0
    vega := 0
    theta := 0
    rho := 0 }

/-- `BlackScholes.calculateZeroVol` (part_001, lines 150-167). -/
def calculateZeroVol (p : BSParams) : PricingResult :=
  let discount := Real.exp (-p.r * p.T)
  let isCall := jsToLower p.type == "call"
  { price := if isCall then max 0 (p.S - p.K * discount) else max 0 (p.K * discount - p.S)
    delta := if isCall then (if p.K * discount < p.S then 1 else 0)
             else (if p.S < p.K * discount then -1 else 0)
    gamma := 0
    vega := 0
    theta := -p.r * p.K * discount / 365
    rho := if isCall then p.K * p.T * discount / 100 else -(p.K * p.T * discount) / 100 }

/-- `BlackScholes.calculate` (part_001, lines 73-124): price and Greeks, with
the `T <= 0` and `v <= 0` edge cases dispatched first exactly as in source. -/
def calculate (p : BSParams) : PricingResult :=
  if p.T ≤ 0 then calculateExpired p
  else if p.v ≤ 0 then calculateZeroVol p
  else
    let d1v := d1 p.S p.K p.r p.v p.T
    let d2v := d2 d1v p.v p.T
    let Nd1 := normalCDF d1v
    let Nd2 := normalCDF d2v
    let NNd1 := normalCDF (-d1v)
    let NNd2 := normalCDF (-d2v)
    let discount := Real.exp (-p.r * p.T)
    let sqrtT := Real.sqrt p.T
    let isCall := jsToLower p.type == "call"
    let price := if isCall then p.S * Nd1 - p.K * discount * Nd2
                 else p.K * discount * NNd2 - p.S * NNd1
    let delta := if isCall then Nd1 else -NNd1
    let rho := if isCall then p.K * p.T * discount * Nd2 / 100
               else -(p.K * p.T * discount * NNd2) / 100
    let gamma := normalPDF d1v / (p.S * p.v * sqrtT)
    let vega := p.S * sqrtT * normalPDF d1v / 100
    let term1 := -(p.S * p.v * normalPDF d1v) / (2 * sqrtT)
    let term2 := p.r * p.K * discount
    let theta := if isCall then (term1 - term2 * Nd2) / 365 else (term1 + term2 * NNd2) / 365
    { price := max 0 price
      delta := delta
      gamma := gamma
      vega := vega
      theta := theta
      rho := rho }

end BlackScholes

namespace MonteCarloEngine

/-- JavaScript `Number.EPSILON = 2^(-52)`, the rejection threshold in
`boxMuller` (monte-carlo.js, line 117). -/
def numberEpsilon : ℝ := 1 / 2 ^ 52

/-- The retry loop of `MonteCarloEngine.boxMuller` (monte-carlo.js, lines
113-117): starting at position `k` of the uniform stream `u`, consume pairs
`(u k, u (k+1))` until the first coordinate exceeds `Number.EPSILON`, and
return the position of the accepted pair.  `fuel` bounds the number of
attempts, standing in for the unbounded JavaScript do/while loop. -/
def boxMullerSeek (u : ℕ → ℝ) : ℕ → ℕ → Option ℕ
  | 0, _ => none
  | fuel + 1, k => if u k ≤ numberEpsilon then boxMullerSeek u fuel (k + 2) else some k

/-- `MonteCarloEngine.boxMuller` (monte-carlo.js, lines 112-121) over an
explicit uniform stream: `z0 = sqrt(-2 ln u1) * cos(2 pi u2)` for the first
accepted pair. -/
def boxMuller (u : ℕ → ℝ) (fuel k : ℕ) : Option ℝ :=
  (boxMullerSeek u fuel k).map
    (fun j => Real.sqrt (-2 * Real.log (u j)) * Real.cos (2 * Real.pi * u (j + 1)))

/-- The price after `i` steps of the loop of `MonteCarloEngine.generatePath`
(monte-carlo.js, lines 23-33): each step multiplies by
`exp((mu - 0.5*sigma*sigma)*dt + sigma*sqrt(dt)*Z)`, `dt = T/steps`, with the
standard-normal draw for step `i+1` taken from the stream `Z` at index `i`. -/
def pathPrice (S0 mu sigma T : ℝ) (steps : ℕ) (Z : ℕ → ℝ) : ℕ → ℝ
  | 0 => S0
  | i + 1 =>
    pathPrice S0 mu sigma T steps Z i *
      Real.exp ((mu - 0.5 * sigma * sigma) * (T / steps) +
        sigma * Real.sqrt (T / steps) * Z i)

/-- `MonteCarloEngine.generatePath` (monte-carlo.js, lines 18-36): the list
`[path[0], ..., path[steps]]`. -/
def generatePath (S0 mu sigma T : ℝ) (steps : ℕ) (Z : ℕ → ℝ) : List ℝ :=
  (List.range (steps + 1)).map (pathPrice S0 mu sigma T steps Z)

/-- `MonteCarloEngine.generatePaths` (monte-carlo.js, lines 44-53); the draw
stream is indexed per path, modelling the sequential global RNG. -/
def generatePaths (S0 mu sigma T : ℝ) (steps paths : ℕ) (Z : ℕ → ℕ → ℝ) :
    List (List ℝ) :=
  (List.range paths).map (fun j => generatePath S0 mu sigma T steps (Z j))

/-- Parameter record for `MonteCarloEngine.priceOption`; `style` is
destructured by the source (monte-carlo.js, line 70) and therefore appears
here even though the body never reads it. -/
structure MCParams where
  S0 : ℝ
  K : ℝ
  r : ℝ
  sigma : ℝ
  T : ℝ
  paths : ℕ
  steps : ℕ
  type : String
  style : String

/-- Result record of `priceOption`; the JavaScript nested
`confidenceInterval {lower, upper}` object is flattened into two fields. -/
structure SimulationResult where
  price : ℝ
  lower : ℝ
  upper : ℝ
  standardError : ℝ

/-- `MonteCarloEngine.priceOption` (monte-carlo.js, lines 69-106): risk-neutral
Monte-Carlo price with drift `mu = r`, discounted mean payoff, sample standard
error (divisor `paths - 1`) and a 1.96 confidence interval. -/
def priceOption (p : MCParams) (Z : ℕ → ℕ → ℝ) : SimulationResult :=
  let simulationPaths := generatePaths p.S0 p.r p.sigma p.T p.steps p.paths Z
  let payoffs := simulationPaths.map (fun path =>
    let finalPrice := path.getLastD 0
    if jsToLower p.type == "call" then max 0 (finalPrice - p.K) else max 0 (p.K - finalPrice))
  let meanPayoff := payoffs.sum / (p.paths : ℝ)
  let price := meanPayoff * Real.exp (-p.r * p.T)
  let variance := (payoffs.map (fun payoff => (payoff - meanPayoff) ^ 2)).sum /
    ((p.paths : ℝ) - 1)
  let standardError := Real.sqrt (variance / (p.paths : ℝ))
  { price := price
    lower := price - 1.96 * standardError * Real.exp (-p.r * p.T)
    upper := price + 1.96 * standardError * Real.exp (-p.r * p.T)
    standardError := standardError * Real.exp (-p.r * p.T) }

/-- Spec-side (claim C6): the terminal payoffs of the ensemble generated with
drift mu = r, `max(0, S_T - K)` for calls and `max(0, K - S_T)` for puts. -/
def payoffsSpec (p : MCParams) (Z : ℕ → ℕ → ℝ) : List ℝ :=
  (generatePaths p.S0 p.r p.sigma p.T p.steps p.paths Z).map (fun path =>
    if jsToLower p.type == "call" then max 0 (path.getLastD 0 - p.K)
    else max 0 (p.K - path.getLastD 0))

/-- Spec-side (claim C6): the sample mean of the terminal payoffs. -/
def meanSpec (p : MCParams) (Z : ℕ → ℕ → ℝ) : ℝ :=
  (payoffsSpec p Z).sum / (p.paths : ℝ)

/-- Spec-side (claim C6): the sample standard error of the payoffs (sample
variance with divisor `paths - 1`, divided by `paths`, square-rooted),
multiplied by the discount factor `e^(-rT)`. -/
def seSpec (p : MCParams) (Z : ℕ → ℕ → ℝ) : ℝ :=
  Real.sqrt (((payoffsSpec p Z).map (fun x => (x - meanSpec p Z) ^ 2)).sum /
      ((p.paths : ℝ) - 1) / (p.paths : ℝ)) *
    Real.exp (-p.r * p.T)

/-- JavaScript `Array.prototype.slice(0, e)` with a possibly negative end
index, as used on the sorted returns (monte-carlo.js, line 146). -/
def jsSliceTo (l : List ℝ) (e : ℤ) : List ℝ :=
  if 0 ≤ e then l.take e.toNat else l.take (l.length - (-e).toNat)

/-- Result record of `calculateRiskMetrics`.  Fields are `Option ℝ`: `none`
models the NaN that JavaScript produces from `returns[varIndex]` being
`undefined` (out-of-bounds read) or from the `0/0` in the CVaR expression. -/
structure RiskMetrics where
  valueAtRisk : Option ℝ
  conditionalVaR : Option ℝ
  worstReturn : Option ℝ
  bestReturn : Option ℝ

/-- `MonteCarloEngine.calculateRiskMetrics` (monte-carlo.js, lines 130-155).
Returns are sorted ascending; `varIndex = floor(N * (1 - confidence))`;
VaR is `-returns[varIndex] * initialValue` (out-of-bounds -> `none`); CVaR is
`-slice(0, varIndex).sum / varIndex * initialValue`, with `none` for the
`varIndex = 0` case where JavaScript divides 0 by 0. -/
def calculateRiskMetrics (paths : List (List ℝ)) (confidence : ℝ)
    (initialValue : ℝ) : RiskMetrics :=
  let returnsL := paths.map (fun path => (path.getLastD 0 - path.headD 0) / path.headD 0)
  let sorted := List.insertionSort (· ≤ ·) returnsL
  let n := sorted.length
  let varIndex : ℤ := ⌊(n : ℝ) * (1 - confidence)⌋
  { valueAtRisk :=
      if 0 ≤ varIndex then (sorted[varIndex.toNat]?).map (fun x => -x * initialValue)
      else none
    conditionalVaR :=
      if varIndex = 0 then none
      else some (-(jsSliceTo sorted varIndex).sum / (varIndex : ℝ) * initialValue)
    worstReturn := sorted[0]?
    bestReturn := sorted[n - 1]? }

end MonteCarloEngine

namespace PortfolioOptimizer

/-- The `constraints` object passed to `optimizePortfolio` (index.html). -/
structure OptConstraints where
  sumToOne : Bool
  nonNegative : Bool

/-- Result record of `calculatePortfolioMetrics`; the JavaScript field
`return` is spelled `ret` here (`return` is a keyword). -/
structure PortfolioMetrics where
  ret : ℝ
  risk : ℝ
  variance : ℝ

/-- `PortfolioOptimizer.calculatePortfolioMetrics` (index.html): weighted
return, full double-sum variance `w' Sigma w`, risk = sqrt(variance). -/
def calculatePortfolioMetrics (weights returns : List ℝ) (covariance : List (List ℝ)) :
    PortfolioMetrics :=
  let portfolioReturn :=
    ((List.range weights.length).map (fun i => weights.getD i 0 * returns.getD i 0)).sum
  let portfolioVariance :=
    ((List.range weights.length).map (fun i =>
      ((List.range weights.length).map (fun j =>
        weights.getD i 0 * weights.getD j 0 * (covariance.getD i []).getD j 0)).sum)).sum
  { ret := portfolioReturn
    risk := Real.sqrt portfolioVariance
    variance := portfolioVariance }

/-- `PortfolioOptimizer.calculateGradients` (index.html):
`gradients[i] = sum_j weights[j] * covariance[i][j]`. -/
def calculateGradients (weights : List ℝ) (covariance : List (List ℝ)) : List ℝ :=
  (List.range weights.length).map (fun i =>
    ((List.range weights.length).map (fun j =>
      weights.getD j 0 * (covariance.getD i []).getD j 0)).sum)

/-- One iteration of the loop body of `optimizePortfolio` (index.html):
gradient step with learning rate 0.01, then clamp at 0 if `nonNegative`,
then renormalize by the sum if `sumToOne`. -/
def optStep (covariance : List (List ℝ)) (cons : OptConstraints) (w : List ℝ) : List ℝ :=
  let gradients := calculateGradients w covariance
  let w1 := List.zipWith (fun wi gi => wi - 0.01 * gi) w gradients
  let w2 := if cons.nonNegative then w1.map (fun x => max 0 x) else w1
  if cons.sumToOne then w2.map (fun x => x / w2.sum) else w2

/-- The `currentReturn` computed at the end of each iteration (index.html):
`weights.reduce((sum, w, i) => sum + w * returns[i], 0)`. -/
def currentReturn (w returns : List ℝ) : ℝ :=
  ((List.range w.length).map (fun i => w.getD i 0 * returns.getD i 0)).sum

/-- The iteration loop of `optimizePortfolio`, with the early break once the
realized return is within `0.0001` of the target. -/
def optLoop (returns : List ℝ) (covariance : List (List ℝ)) (targetReturn : ℝ)
    (cons : OptConstraints) : ℕ → List ℝ → List ℝ
  | 0, w => w
  | fuel + 1, w =>
    let w' := optStep covariance cons w
    if |currentReturn w' returns - targetReturn| < 0.0001 then w'
    else optLoop returns covariance targetReturn cons fuel w'

/-- `PortfolioOptimizer.optimizePortfolio` (index.html): 1000 iterations of
projected gradient descent starting from equal weights `1/n`. -/
def optimizePortfolio (returns : List ℝ) (covariance : List (List ℝ))
    (targetReturn : ℝ) (cons : OptConstraints) : List ℝ :=
  optLoop returns covariance targetReturn cons 1000
    (List.replicate returns.length (1 / (returns.length : ℝ)))

/-- `Math.min(...l)` for the nonempty argument lists the frontier code builds;
the `[]` case (JavaScript would give `Infinity`) is never exercised by the
claims, which assume at least one asset. -/
def listMin : List ℝ → ℝ
  | [] => 0
  | x :: xs => xs.foldl min x

/-- `Math.max(...l)`, same conventions as `listMin`. -/
def listMax : List ℝ → ℝ
  | [] => 0
  | x :: xs => xs.foldl max x

/-- A point of the efficient frontier (index.html); the JavaScript field
`return` is spelled `ret`. -/
structure FrontierPoint where
  weights : List ℝ
  ret : ℝ
  risk : ℝ
  sharpe : ℝ

/-- `PortfolioOptimizer.calculateSharpeRatio` (index.html). -/
def sharpeOf (portfolioReturn portfolioRisk riskFreeRate : ℝ) : ℝ :=
  (portfolioReturn - riskFreeRate) / portfolioRisk

/-- `PortfolioOptimizer.generateEfficientFrontier` (index.html): `points`
equally spaced target returns from `min(returns)` to `max(returns)`, one
`optimizePortfolio` call per target, metrics and Sharpe ratio per point. -/
def generateEfficientFrontier (returns : List ℝ) (covariance : List (List ℝ))
    (riskFreeRate : ℝ) (points : ℕ) : List FrontierPoint :=
  let minReturn := listMin returns
  let maxReturn := listMax returns
  let returnStep := (maxReturn - minReturn) / ((points : ℝ) - 1)
  (List.range points).map (fun i : ℕ =>
    let targetReturn := minReturn + (i : ℝ) * returnStep
    let weights := optimizePortfolio returns covariance targetReturn
      { sumToOne := true, nonNegative := true }
    let metrics := calculatePortfolioMetrics weights returns covariance
    { weights := weights
      ret := metrics.ret
      risk := metrics.risk
      sharpe := sharpeOf metrics.ret metrics.risk riskFreeRate })

/-- Spec-side (claim C8): the i-th equally spaced target return,
`min(returns) + i * (max(returns) - min(returns)) / (points - 1)`. -/
def targetReturnAt (returns : List ℝ) (points i : ℕ) : ℝ :=
  listMin returns + (i : ℝ) * ((listMax returns - listMin returns) / ((points : ℝ) - 1))

end PortfolioOptimizer

/-!
## Helper lemmas about the Abramowitz-Stegun CDF approximation
-/

namespace BlackScholes

theorem erfPoly_le_one {t : ℝ} (h0 : 0 ≤ t) (h1 : t ≤ 1) : erfPoly t ≤ 1 := by
  have ht3 : t ^ 3 ≤ 1 := pow_le_one₀ h0 h1
  have ht2 : (0:ℝ) ≤ t ^ 2 := sq_nonneg t
  have ht4 : (0:ℝ) ≤ t ^ 4 := by positivity
  have hG : (0:ℝ) ≤ 0.999999999 + 0.745170407 * t + 1.029667143 * t ^ 2
      - 0.391746598 * t ^ 3 + 1.061405429 * t ^ 4 := by nlinarith
  have hfac : (0:ℝ) ≤ (1 - t) * (0.999999999 + 0.745170407 * t + 1.029667143 * t ^ 2
      - 0.391746598 * t ^ 3 + 1.061405429 * t ^ 4) :=
    mul_nonneg (by linarith) hG
  simp only [erfPoly, a1, a2, a3, a4, a5]
  nlinarith [hfac]

theorem erfPoly_nonneg {t : ℝ} (h0 : 0 ≤ t) (h1 : t ≤ 1) : 0 ≤ erfPoly t := by
  have ht32 : t ^ 3 ≤ t ^ 2 := pow_le_pow_of_le_one h0 h1 (by norm_num)
  have hQ : (0:ℝ) ≤ 0.254829592 - 0.284496736 * t + 1.421413741 * t ^ 2
      - 1.453152027 * t ^ 3 + 1.061405429 * t ^ 4 := by
    nlinarith [sq_nonneg (t ^ 2 - 0.16384), sq_nonneg (t - 0.45), sq_nonneg t,
      sq_nonneg (t ^ 2 - t), mul_nonneg h0 (sq_nonneg t)]
  simp only [erfPoly, a1, a2, a3, a4, a5]
  nlinarith [mul_nonneg h0 hQ]

theorem tArg_nonneg {y : ℝ} (hy : 0 ≤ y) : 0 ≤ 1 / (1 + pCoeff * y) := by
  have : (0:ℝ) < 1 + pCoeff * y := by
    have : (0:ℝ) ≤ pCoeff * y := mul_nonneg (by norm_num [pCoeff]) hy
    linarith
  positivity

theorem tArg_le_one {y : ℝ} (hy : 0 ≤ y) : 1 / (1 + pCoeff * y) ≤ 1 := by
  have h : (0:ℝ) ≤ pCoeff * y := mul_nonneg (by norm_num [pCoeff]) hy
  rw [div_le_one (by linarith)]
  linarith

/-- The bracketed erf value `1 - erfPoly t * exp(-y*y)` lies in [0,1] for the
`t` produced from any `y ≥ 0`. -/
theorem erfv_mem {y : ℝ} (hy : 0 ≤ y) :
    0 ≤ 1 - erfPoly (1 / (1 + pCoeff * y)) * Real.exp (-y * y) ∧
    1 - erfPoly (1 / (1 + pCoeff * y)) * Real.exp (-y * y) ≤ 1 := by
  have h0 := tArg_nonneg hy
  have h1 := tArg_le_one hy
  have hP0 := erfPoly_nonneg h0 h1
  have hP1 := erfPoly_le_one h0 h1
  have hE0 : (0:ℝ) < Real.exp (-y * y) := Real.exp_pos _
  have hE1 : Real.exp (-y * y) ≤ 1 := by
    rw [Real.exp_le_one_iff]
    nlinarith
  constructor
  · nlinarith
  · nlinarith

theorem normalCDF_nonneg (x : ℝ) : 0 ≤ normalCDF x := by
  have hy : (0:ℝ) ≤ |x| / Real.sqrt 2 := by positivity
  have h := erfv_mem hy
  simp only [normalCDF]
  rcases lt_or_le x 0 with hx | hx
  · rw [if_pos hx]; nlinarith [h.1, h.2]
  · rw [if_neg (not_lt.mpr hx)]; nlinarith [h.1, h.2]

theorem normalCDF_le_one (x : ℝ) : normalCDF x ≤ 1 := by
  have hy : (0:ℝ) ≤ |x| / Real.sqrt 2 := by positivity
  have h := erfv_mem hy
  simp only [normalCDF]
  rcases lt_or_le x 0 with hx | hx
  · rw [if_pos hx]; nlinarith [h.1, h.2]
  · rw [if_neg (not_lt.mpr hx)]; nlinarith [h.1, h.2]

/-- Exact odd symmetry of the approximation away from 0:
`N(x) + N(-x) = 1` whenever `x ≠ 0`. -/
theorem normalCDF_add_neg {x : ℝ} (hx : x ≠ 0) :
    normalCDF x + normalCDF (-x) = 1 := by
  rcases hx.lt_or_lt with h | h
  · simp only [normalCDF, if_pos h, if_neg (not_lt.mpr (by linarith : (0:ℝ) ≤ -x)),
      abs_neg]
    ring
  · simp only [normalCDF, if_neg (not_lt.mpr h.le), if_pos (by linarith : -x < 0),
      abs_neg]
    ring

/-- `N(-x) ≤ N(x)` for `x ≥ 0`; used to discharge no-flooring hypotheses. -/
theorem normalCDF_neg_le_self {x : ℝ} (hx : 0 ≤ x) :
    normalCDF (-x) ≤ normalCDF x := by
  rcases eq_or_lt_of_le hx with h | h
  · simp [← h]
  · have hy : (0:ℝ) ≤ |x| / Real.sqrt 2 := by positivity
    have hm := erfv_mem hy
    simp only [normalCDF, if_neg (not_lt.mpr hx), if_pos (by linarith : -x < 0), abs_neg]
    nlinarith [hm.1]

/-- Unfolding of `calculate` on the main (`T > 0`, `v > 0`) branch for a
'call'. -/
theorem calculate_call (S K r v T : ℝ) (hT : 0 < T) (hv : 0 < v) :
    calculate ⟨S, K, r, v, T, "call"⟩ =
      { price := max 0 (S * normalCDF (d1 S K r v T) -
          K * Real.exp (-r * T) * normalCDF (d2 (d1 S K r v T) v T))
        delta := normalCDF (d1 S K r v T)
        gamma := normalPDF (d1 S K r v T) / (S * v * Real.sqrt T)
        vega := S * Real.sqrt T * normalPDF (d1 S K r v T) / 100
        theta := (-(S * v * normalPDF (d1 S K r v T)) / (2 * Real.sqrt T) -
          r * K * Real.exp (-r * T) * normalCDF (d2 (d1 S K r v T) v T)) / 365
        rho := K * T * Real.exp (-r * T) * normalCDF (d2 (d1 S K r v T) v T) / 100 } := by
  have hty : (jsToLower "call" == "call") = true := by decide
  simp only [calculate, hty]
  rw [if_neg (by simp; exact hT), if_neg (by simp; exact hv)]
  simp

/-- Unfolding of `calculate` on the main (`T > 0`, `v > 0`) branch for a
'put'. -/
theorem calculate_put (S K r v T : ℝ) (hT : 0 < T) (hv : 0 < v) :
    calculate ⟨S, K, r, v, T, "put"⟩ =
      { price := max 0 (K * Real.exp (-r * T) * normalCDF (-(d2 (d1 S K r v T) v T)) -
          S * normalCDF (-(d1 S K r v T)))
        delta := -normalCDF (-(d1 S K r v T))
        gamma := normalPDF (d1 S K r v T) / (S * v * Real.sqrt T)
        vega := S * Real.sqrt T * normalPDF (d1 S K r v T) / 100
        theta := (-(S * v * normalPDF (d1 S K r v T)) / (2 * Real.sqrt T) +
          r * K * Real.exp (-r * T) * normalCDF (-(d2 (d1 S K r v T) v T))) / 365
        rho := -(K * T * Real.exp (-r * T) * normalCDF (-(d2 (d1 S K r v T) v T))) / 100 } := by
  have hty : (jsToLower "put" == "call") = false := by decide
  simp only [calculate, hty]
  rw [if_neg (by simp; exact hT), if_neg (by simp; exact hv)]
  simp

theorem normalPDF_nonneg (x : ℝ) : 0 ≤ normalPDF x := by
  simp only [normalPDF]
  positivity

end BlackScholes

/-!
## Helper lemmas for the Monte-Carlo engine
-/

namespace MonteCarloEngine

theorem pathPrice_pos {S0 : ℝ} (hS0 : 0 < S0) (mu sigma T : ℝ) (steps : ℕ)
    (Z : ℕ → ℝ) : ∀ i, 0 < pathPrice S0 mu sigma T steps Z i
  | 0 => hS0
  | i + 1 => mul_pos (pathPrice_pos hS0 mu sigma T steps Z i) (Real.exp_pos _)

/-- In a sorted list, the sum of the first `k` elements is at most `k` times
the element at index `k`. -/
theorem sum_take_le_get {l : List ℝ} (hs : l.Sorted (· ≤ ·)) {k : ℕ}
    (hk : k < l.length) : (l.take k).sum ≤ (k : ℝ) * l.get ⟨k, hk⟩ := by
  have hlen : (l.take k).length = k := by
    rw [List.length_take]
    omega
  have hmem : ∀ x ∈ l.take k, x ≤ l.get ⟨k, hk⟩ := by
    intro x hx
    obtain ⟨j, hj, rfl⟩ := List.mem_iff_getElem.mp hx
    have hjk : j < k := by rw [hlen] at hj; exact hj
    have hje : j < l.length := by omega
    rw [List.getElem_take]
    exact hs.rel_get_of_lt (show (⟨j, hje⟩ : Fin l.length) < ⟨k, hk⟩ from hjk)
  calc (l.take k).sum ≤ (l.take k).length • l.get ⟨k, hk⟩ :=
        List.sum_le_card_nsmul _ _ hmem
    _ = (k : ℝ) * l.get ⟨k, hk⟩ := by rw [hlen, nsmul_eq_mul]

/-- `calculateRiskMetrics` unfolded over an abstract sorted list `s` standing
for the sorted returns. -/
theorem calculateRiskMetrics_spec (paths : List (List ℝ))
    (confidence initialValue : ℝ) :
    ∃ s : List ℝ, s.Sorted (· ≤ ·) ∧ s.length = paths.length ∧
      calculateRiskMetrics paths confidence initialValue =
        { valueAtRisk :=
            if 0 ≤ ⌊(s.length : ℝ) * (1 - confidence)⌋ then
              (s[(⌊(s.length : ℝ) * (1 - confidence)⌋).toNat]?).map
                (fun x => -x * initialValue)
            else none
          conditionalVaR :=
            if ⌊(s.length : ℝ) * (1 - confidence)⌋ = 0 then none
            else some (-(jsSliceTo s ⌊(s.length : ℝ) * (1 - confidence)⌋).sum /
              ((⌊(s.length : ℝ) * (1 - confidence)⌋ : ℤ) : ℝ) * initialValue)
          worstReturn := s[0]?
          bestReturn := s[s.length - 1]? } := by
  refine ⟨List.insertionSort (· ≤ ·)
    (paths.map (fun path : List ℝ => (path.getLastD 0 - path.headD 0) / path.headD 0)),
    List.sorted_insertionSort _ _, ?_, rfl⟩
  rw [List.length_insertionSort, List.length_map]

end MonteCarloEngine

/-!
## Helper lemmas for the portfolio optimizer
-/

namespace PortfolioOptimizer

theorem sum_range_getD (l : List ℝ) :
    ((List.range l.length).map (fun j => l.getD j 0)).sum = l.sum := by
  induction l with
  | nil => simp
  | cons a l ih =>
    rw [List.length_cons, List.range_succ_eq_map, List.map_cons, List.getD_cons_zero,
      List.map_map, List.sum_cons]
    have hcomp : (fun j => (a :: l).getD j 0) ∘ Nat.succ = fun j => l.getD j 0 := by
      funext j
      simp [List.getD_cons_succ]
    rw [hcomp, ih]
    exact (List.sum_cons).symm

theorem zipWith_sub_sum : ∀ l g : List ℝ, l.length = g.length →
    (List.zipWith (fun wi gi => wi - 0.01 * gi) l g).sum = l.sum - 0.01 * g.sum
  | [], [], _ => by simp
  | [], _ :: _, h => by simp at h
  | _ :: _, [], h => by simp at h
  | a :: l, b :: g, h => by
    have ih := zipWith_sub_sum l g (by simpa using h)
    simp only [List.zipWith_cons_cons, List.sum_cons, ih]
    ring

theorem sum_le_sum_map_max (l : List ℝ) :
    l.sum ≤ (l.map (fun x => max 0 x)).sum := by
  induction l with
  | nil => simp
  | cons a l ih =>
    simp only [List.map_cons, List.sum_cons]
    exact add_le_add (le_max_right 0 a) ih

theorem sum_map_div (l : List ℝ) (s : ℝ) :
    (l.map (fun x => x / s)).sum = l.sum / s := by
  induction l with
  | nil => simp
  | cons a l ih =>
    simp only [List.map_cons, List.sum_cons, ih]
    rw [add_div]

theorem getD_nonneg {l : List ℝ} (h : ∀ x ∈ l, 0 ≤ x) (j : ℕ) : 0 ≤ l.getD j 0 := by
  rcases lt_or_le j l.length with hj | hj
  · rw [List.getD_eq_getElem l 0 hj]
    exact h _ (List.getElem_mem hj)
  · rw [List.getD_eq_default l 0 hj]

theorem calculateGradients_le {w : List ℝ} {cov : List (List ℝ)} {c : ℝ} {n : ℕ}
    (hwlen : w.length = n) (hcovlen : cov.length = n)
    (hrowlen : ∀ row ∈ cov, row.length = n)
    (hcovle : ∀ row ∈ cov, ∀ x ∈ row, x ≤ c)
    (hwn : ∀ x ∈ w, 0 ≤ x) (hwsum : w.sum = 1) :
    ∀ gi ∈ calculateGradients w cov, gi ≤ c := by
  intro gi hgi
  simp only [calculateGradients, List.mem_map, List.mem_range] at hgi
  obtain ⟨i, hi, rfl⟩ := hgi
  have hiN : i < cov.length := by omega
  have hrowmem : cov.getD i [] ∈ cov := by
    rw [List.getD_eq_getElem cov [] hiN]
    exact List.getElem_mem hiN
  have hterm : ∀ j ∈ List.range w.length,
      w.getD j 0 * (cov.getD i []).getD j 0 ≤ w.getD j 0 * c := by
    intro j hj
    rw [List.mem_range] at hj
    have hjrow : j < (cov.getD i []).length := by
      rw [hrowlen _ hrowmem]
      omega
    have hentry : (cov.getD i []).getD j 0 ≤ c := by
      rw [List.getD_eq_getElem _ 0 hjrow]
      exact hcovle _ hrowmem _ (List.getElem_mem hjrow)
    exact mul_le_mul_of_nonneg_left hentry (getD_nonneg hwn j)
  calc ((List.range w.length).map
        (fun j => w.getD j 0 * (cov.getD i []).getD j 0)).sum
      ≤ ((List.range w.length).map (fun j => w.getD j 0 * c)).sum := by
        apply List.sum_le_sum
        intro j hj
        exact hterm j hj
    _ = ((List.range w.length).map (fun j => w.getD j 0)).sum * c := by
        rw [← List.sum_map_mul_right]
    _ = w.sum * c := by rw [sum_range_getD]
    _ = c := by rw [hwsum, one_mul]

theorem optStep_preserves {cov : List (List ℝ)} {c : ℝ} {n : ℕ}
    (hcovlen : cov.length = n) (hrowlen : ∀ row ∈ cov, row.length = n)
    (hcovle : ∀ row ∈ cov, ∀ x ∈ row, x ≤ c) (hc : (n : ℝ) * c < 100)
    {w : List ℝ} (hwlen : w.length = n) (hwn : ∀ x ∈ w, 0 ≤ x) (hwsum : w.sum = 1) :
    (optStep cov ⟨true, true⟩ w).length = n ∧
    (∀ x ∈ optStep cov ⟨true, true⟩ w, 0 ≤ x) ∧
    (optStep cov ⟨true, true⟩ w).sum = 1 := by
  have hglen : (calculateGradients w cov).length = w.length := by
    simp [calculateGradients]
  have hgle := calculateGradients_le hwlen hcovlen hrowlen hcovle hwn hwsum
  have hgsum : (calculateGradients w cov).sum ≤ (n : ℝ) * c := by
    have hcard := List.sum_le_card_nsmul (calculateGradients w cov) c hgle
    rwa [hglen, hwlen, nsmul_eq_mul] at hcard
  have hw1sum : (List.zipWith (fun wi gi => wi - 0.01 * gi) w
      (calculateGradients w cov)).sum = 1 - 0.01 * (calculateGradients w cov).sum := by
    rw [zipWith_sub_sum w _ hglen.symm, hwsum]
  have hw1pos : 0 < (List.zipWith (fun wi gi => wi - 0.01 * gi) w
      (calculateGradients w cov)).sum := by
    rw [hw1sum]
    nlinarith
  have hw2sumpos : 0 < ((List.zipWith (fun wi gi => wi - 0.01 * gi) w
      (calculateGradients w cov)).map (fun x => max 0 x)).sum :=
    lt_of_lt_of_le hw1pos (sum_le_sum_map_max _)
  have hstep : optStep cov ⟨true, true⟩ w =
      ((List.zipWith (fun wi gi => wi - 0.01 * gi) w
        (calculateGradients w cov)).map (fun x => max 0 x)).map
        (fun x => x / ((List.zipWith (fun wi gi => wi - 0.01 * gi) w
          (calculateGradients w cov)).map (fun x => max 0 x)).sum) := rfl
  rw [hstep]
  refine ⟨?_, ?_, ?_⟩
  · rw [List.length_map, List.length_map, List.length_zipWith, hglen, hwlen]
    exact Nat.min_self n
  · intro x hx
    simp only [List.mem_map] at hx
    obtain ⟨y, ⟨z, _, rfl⟩, rfl⟩ := hx
    exact div_nonneg (le_max_left 0 z) hw2sumpos.le
  · rw [sum_map_div, div_self hw2sumpos.ne']

theorem optLoop_preserves {returns : List ℝ} {cov : List (List ℝ)}
    {target c : ℝ} {n : ℕ}
    (hcovlen : cov.length = n) (hrowlen : ∀ row ∈ cov, row.length = n)
    (hcovle : ∀ row ∈ cov, ∀ x ∈ row, x ≤ c) (hc : (n : ℝ) * c < 100)
    (fuel : ℕ) :
    ∀ w : List ℝ, w.length = n → (∀ x ∈ w, 0 ≤ x) → w.sum = 1 →
      (optLoop returns cov target ⟨true, true⟩ fuel w).length = n ∧
      (∀ x ∈ optLoop returns cov target ⟨true, true⟩ fuel w, 0 ≤ x) ∧
      (optLoop returns cov target ⟨true, true⟩ fuel w).sum = 1 := by
  induction fuel with
  | zero => exact fun w h1 h2 h3 => ⟨h1, h2, h3⟩
  | succ fuel ih =>
    intro w h1 h2 h3
    obtain ⟨s1, s2, s3⟩ := optStep_preserves hcovlen hrowlen hcovle hc h1 h2 h3
    by_cases hbr : |currentReturn (optStep cov ⟨true, true⟩ w) returns - target| < 0.0001
    · simp only [optLoop, if_pos hbr]
      exact ⟨s1, s2, s3⟩
    · simp only [optLoop, if_neg hbr]
      exact ih _ s1 s2 s3

/-- On the one-asset counterexample input, once the weight vector has
collapsed to `[0]` it stays `[0]` forever: the clamped sum is 0 and the
renormalization divides 0 by 0 (NaN in JavaScript, junk value 0 here). -/
theorem optLoop_zero_fix : ∀ k : ℕ,
    optLoop [0] [[200]] 1 ⟨true, true⟩ k [0] = [0] := by
  intro k
  induction k with
  | zero => rfl
  | succ k ih =>
    have hstep : optStep [[200]] ⟨true, true⟩ [0] = [0] := by
      simp [optStep, calculateGradients, List.range_succ]
    have hcur : currentReturn [0] [0] = 0 := by
      simp [currentReturn, List.range_succ]
    simp only [optLoop, hstep, hcur]
    rw [if_neg (by norm_num)]
    exact ih

theorem foldl_min_le_foldl_max : ∀ (xs : List ℝ) (x y : ℝ), x ≤ y →
    xs.foldl min x ≤ xs.foldl max y
  | [], _, _, h => h
  | a :: xs, x, y, h =>
    foldl_min_le_foldl_max xs (min x a) (max y a)
      (le_trans (min_le_left x a) (le_trans h (le_max_left y a)))

theorem listMin_le_listMax {l : List ℝ} (h : l ≠ []) : listMin l ≤ listMax l := by
  cases l with
  | nil => exact absurd rfl h
  | cons a l => exact foldl_min_le_foldl_max l a a le_rfl

end PortfolioOptimizer

/-!
## Claims
-/

open BlackScholes in
/-- C5: for every S > 0, K > 0, T > 0, v > 0 and any real r, the PricingResult
returned by `BlackScholes.calculate` satisfies gamma ≥ 0 and vega ≥ 0, and
delta lies in [0,1] for a 'call' and in [-1,0] for a 'put' (the rational
normalCDF approximation stays within [0,1] for every argument). -/
theorem c5_greeks_sanity (S K r v T : ℝ) (hS : 0 < S) (hK : 0 < K)
    (hT : 0 < T) (hv : 0 < v) :
    0 ≤ (calculate ⟨S, K, r, v, T, "call"⟩).gamma ∧
    0 ≤ (calculate ⟨S, K, r, v, T, "call"⟩).vega ∧
    0 ≤ (calculate ⟨S, K, r, v, T, "call"⟩).delta ∧
    (calculate ⟨S, K, r, v, T, "call"⟩).delta ≤ 1 ∧
    0 ≤ (calculate ⟨S, K, r, v, T, "put"⟩).gamma ∧
    0 ≤ (calculate ⟨S, K, r, v, T, "put"⟩).vega ∧
    -1 ≤ (calculate ⟨S, K, r, v, T, "put"⟩).delta ∧
    (calculate ⟨S, K, r, v, T, "put"⟩).delta ≤ 0 := by
  rw [calculate_call S K r v T hT hv, calculate_put S K r v T hT hv]
  have hpdf := normalPDF_nonneg (d1 S K r v T)
  have hden : (0:ℝ) ≤ S * v * Real.sqrt T := by positivity
  have hsv : (0:ℝ) ≤ S * Real.sqrt T := by positivity
  refine ⟨div_nonneg hpdf hden, by positivity, normalCDF_nonneg _, normalCDF_le_one _,
    div_nonneg hpdf hden, by positivity, ?_, ?_⟩
  · simpa using normalCDF_le_one (-(d1 S K r v T))
  · simpa using normalCDF_nonneg (-(d1 S K r v T))

/-- Witness for C5 at S = K = T = v = 1, r = 0. -/
theorem c5_greeks_sanity_witness :
    0 ≤ (BlackScholes.calculate ⟨1, 1, 0, 1, 1, "call"⟩).gamma ∧
    0 ≤ (BlackScholes.calculate ⟨1, 1, 0, 1, 1, "call"⟩).vega ∧
    0 ≤ (BlackScholes.calculate ⟨1, 1, 0, 1, 1, "call"⟩).delta ∧
    (BlackScholes.calculate ⟨1, 1, 0, 1, 1, "call"⟩).delta ≤ 1 ∧
    0 ≤ (BlackScholes.calculate ⟨1, 1, 0, 1, 1, "put"⟩).gamma ∧
    0 ≤ (BlackScholes.calculate ⟨1, 1, 0, 1, 1, "put"⟩).vega ∧
    -1 ≤ (BlackScholes.calculate ⟨1, 1, 0, 1, 1, "put"⟩).delta ∧
    (BlackScholes.calculate ⟨1, 1, 0, 1, 1, "put"⟩).delta ≤ 0 :=
  c5_greeks_sanity 1 1 0 1 1 (by norm_num) (by norm_num) (by norm_num) (by norm_num)

/-- C4 counterexample: at S = K = 1, r = 0, v = 0, T = 1 (so T > 0 and v ≤ 0)
the returned theta is 0, refuting the claim's "non-zero theta" for the
zero-volatility branch. -/
theorem c4_zero_theta_counterexample :
    (0:ℝ) < 1 ∧ (0:ℝ) ≤ 0 ∧
    (BlackScholes.calculate ⟨1, 1, 0, 0, 1, "call"⟩).theta = 0 := by
  refine ⟨by norm_num, le_refl 0, ?_⟩
  simp only [BlackScholes.calculate, BlackScholes.calculateZeroVol]
  norm_num

open BlackScholes in
/-- C4, amended: with T ≤ 0, `calculate` returns the intrinsic value with
binary delta and zero gamma/vega/theta/rho; with T > 0 and v ≤ 0 it returns
the discounted intrinsic value with binary delta, zero gamma/vega,
theta = -r*K*e^(-rT)/365 and rho = ±K*T*e^(-rT)/100; rho is never zero there,
while theta vanishes exactly when r = 0 (the claim's "non-zero theta" fails
at r = 0). -/
theorem c4_degenerate_cases (p : BSParams) (hS : 0 < p.S) (hK : 0 < p.K) :
    (p.T ≤ 0 →
      calculate p =
        { price := max 0 (if jsToLower p.type == "call" then p.S - p.K else p.K - p.S)
          delta := if jsToLower p.type == "call" then (if p.K < p.S then 1 else 0)
                   else (if p.S < p.K then -1 else 0)
          gamma := 0
          vega := 0
          theta := 0
          rho := 0 }) ∧
    (0 < p.T → p.v ≤ 0 →
      calculate p =
        { price := if jsToLower p.type == "call" then
              max 0 (p.S - p.K * Real.exp (-p.r * p.T))
            else max 0 (p.K * Real.exp (-p.r * p.T) - p.S)
          delta := if jsToLower p.type == "call" then
              (if p.K * Real.exp (-p.r * p.T) < p.S then 1 else 0)
            else (if p.S < p.K * Real.exp (-p.r * p.T) then -1 else 0)
          gamma := 0
          vega := 0
          theta := -p.r * p.K * Real.exp (-p.r * p.T) / 365
          rho := if jsToLower p.type == "call" then p.K * p.T * Real.exp (-p.r * p.T) / 100
                 else -(p.K * p.T * Real.exp (-p.r * p.T)) / 100 } ∧
      (calculate p).rho ≠ 0 ∧
      ((calculate p).theta = 0 ↔ p.r = 0)) := by
  constructor
  · intro h
    simp only [calculate, if_pos h]
    rfl
  · intro hT hv
    have hcalc : calculate p = calculateZeroVol p := by
      simp only [calculate]
      rw [if_neg (not_le.mpr hT), if_pos hv]
    have hdpos : (0:ℝ) < Real.exp (-p.r * p.T) := Real.exp_pos _
    refine ⟨by rw [hcalc]; rfl, ?_, ?_⟩
    · rw [hcalc]
      simp only [calculateZeroVol]
      by_cases hc : (jsToLower p.type == "call") = true
      · simp only [hc, if_true]
        have : (0:ℝ) < p.K * p.T * Real.exp (-p.r * p.T) / 100 := by positivity
        exact this.ne'
      · simp only [eq_false_of_ne_true hc]
        rw [if_neg (by simp)]
        simp only [ne_eq, neg_div, neg_eq_zero]
        have h100 : (0:ℝ) < p.K * p.T * Real.exp (-p.r * p.T) / 100 := by positivity
        exact h100.ne'
    · rw [hcalc]
      simp only [calculateZeroVol]
      rw [div_eq_zero_iff]
      constructor
      · rintro (h0 | h0)
        · rcases mul_eq_zero.mp h0 with h1 | h1
          · rcases mul_eq_zero.mp h1 with h2 | h2
            · linarith [neg_eq_zero.mp h2]
            · exact absurd h2 hK.ne'
          · exact absurd h1 hdpos.ne'
        · norm_num at h0
      · intro h0
        left
        rw [h0]
        ring

/-- Witness for C4 at S = 2, K = 1, r = 1, v = 0, T = 0, type 'call'. -/
theorem c4_degenerate_cases_witness :
    ((0:ℝ) ≤ 0 →
      BlackScholes.calculate ⟨2, 1, 1, 0, 0, "call"⟩ =
        { price := max 0 (if jsToLower "call" == "call" then 2 - 1 else 1 - 2)
          delta := if jsToLower "call" == "call" then (if (1:ℝ) < 2 then 1 else 0)
                   else (if (2:ℝ) < 1 then -1 else 0)
          gamma := 0
          vega := 0
          theta := 0
          rho := 0 }) ∧
    ((0:ℝ) < 0 → (0:ℝ) ≤ 0 →
      BlackScholes.calculate ⟨2, 1, 1, 0, 0, "call"⟩ =
        { price := if jsToLower "call" == "call" then
              max 0 (2 - 1 * Real.exp (-(1:ℝ) * 0))
            else max 0 (1 * Real.exp (-(1:ℝ) * 0) - 2)
          delta := if jsToLower "call" == "call" then
              (if 1 * Real.exp (-(1:ℝ) * 0) < 2 then 1 else 0)
            else (if 2 < 1 * Real.exp (-(1:ℝ) * 0) then -1 else 0)
          gamma := 0
          vega := 0
          theta := -1 * 1 * Real.exp (-(1:ℝ) * 0) / 365
          rho := if jsToLower "call" == "call" then 1 * 0 * Real.exp (-(1:ℝ) * 0) / 100
                 else -(1 * 0 * Real.exp (-(1:ℝ) * 0)) / 100 } ∧
      (BlackScholes.calculate ⟨2, 1, 1, 0, 0, "call"⟩).rho ≠ 0 ∧
      ((BlackScholes.calculate ⟨2, 1, 1, 0, 0, "call"⟩).theta = 0 ↔ (1:ℝ) = 0)) :=
  c4_degenerate_cases ⟨2, 1, 1, 0, 0, "call"⟩ (by norm_num) (by norm_num)

open BlackScholes in
/-- C3, amended: put-call parity `call - put = S - K*exp(-rT)` holds exactly
(hence within 1e-6) whenever `d1 ≠ 0`, `d2 ≠ 0` and neither raw price is
clipped by the `max 0` floor.  (At `d1 = 0` or `d2 = 0` the rational CDF
approximation satisfies `N(x) + N(-x) = 1 + 1e-9` instead of `1`, so parity
can be violated beyond 1e-6 for large S, K; see the counterexample.) -/
theorem c3_put_call_parity (S K r v T : ℝ) (hS : 0 < S) (hK : 0 < K)
    (hT : 0 < T) (hv : 0 < v)
    (hd1 : d1 S K r v T ≠ 0) (hd2 : d2 (d1 S K r v T) v T ≠ 0)
    (hcall : 0 ≤ S * normalCDF (d1 S K r v T) -
      K * Real.exp (-r * T) * normalCDF (d2 (d1 S K r v T) v T))
    (hput : 0 ≤ K * Real.exp (-r * T) * normalCDF (-(d2 (d1 S K r v T) v T)) -
      S * normalCDF (-(d1 S K r v T))) :
    (calculate ⟨S, K, r, v, T, "call"⟩).price -
      (calculate ⟨S, K, r, v, T, "put"⟩).price = S - K * Real.exp (-r * T) := by
  rw [calculate_call S K r v T hT hv, calculate_put S K r v T hT hv]
  dsimp only
  rw [max_eq_right hcall, max_eq_right hput]
  have h1 := normalCDF_add_neg hd1
  have h2 := normalCDF_add_neg hd2
  linear_combination S * h1 - K * Real.exp (-r * T) * h2

/-- Witness for C3 (amended) at S = K = 1, T = 1, v = 1, r = 0. -/
theorem c3_put_call_parity_witness :
    (BlackScholes.calculate ⟨1, 1, 0, 1, 1, "call"⟩).price -
      (BlackScholes.calculate ⟨1, 1, 0, 1, 1, "put"⟩).price =
      1 - 1 * Real.exp (-(0:ℝ) * 1) := by
  have hd1v : BlackScholes.d1 1 1 0 1 1 = 1 / 2 := by
    simp only [BlackScholes.d1]
    norm_num [Real.log_one, Real.sqrt_one]
  have hd2v : BlackScholes.d2 (1 / 2) 1 1 = -(1 / 2) := by
    simp only [BlackScholes.d2]
    rw [Real.sqrt_one]
    norm_num
  refine c3_put_call_parity 1 1 0 1 1 (by norm_num) (by norm_num) (by norm_num)
    (by norm_num) (by rw [hd1v]; norm_num) (by rw [hd1v, hd2v]; norm_num) ?_ ?_
  · rw [hd1v, hd2v]
    have h := BlackScholes.normalCDF_neg_le_self (x := (1/2:ℝ)) (by norm_num)
    have he : Real.exp (-(0:ℝ) * 1) = 1 := by norm_num [Real.exp_zero]
    rw [he]
    nlinarith [h]
  · rw [hd1v, hd2v]
    have h := BlackScholes.normalCDF_neg_le_self (x := (1/2:ℝ)) (by norm_num)
    have he : Real.exp (-(0:ℝ) * 1) = 1 := by norm_num [Real.exp_zero]
    rw [he]
    nlinarith [h]

open BlackScholes in
/-- C3 counterexample: at S = K = 10^7, r = -1/2, v = 1, T = 1 we get d1 = 0,
where the approximation gives `N(0) + N(0) = 1 + 1e-9`, so
`call - put - (S - K*exp(-rT)) = 10^7 * 1e-9 = 0.01 > 1e-6`. -/
theorem c3_put_call_parity_counterexample :
    ¬ (|(calculate ⟨10000000, 10000000, -(1 / 2), 1, 1, "call"⟩).price -
        (calculate ⟨10000000, 10000000, -(1 / 2), 1, 1, "put"⟩).price -
        (10000000 - 10000000 * Real.exp (-(-(1 / 2)) * (1:ℝ)))| ≤ 1e-6) := by
  have hd1v : d1 10000000 10000000 (-(1 / 2)) 1 1 = 0 := by
    simp only [d1]
    norm_num [Real.log_one, Real.sqrt_one]
  have hd2v : d2 0 1 1 = -1 := by
    simp only [d2]
    rw [Real.sqrt_one]
    norm_num
  have hEeq : Real.exp (-(-(1 / 2)) * (1:ℝ)) = Real.exp (1 / 2) := by norm_num
  have hEE : Real.exp (1 / 2) * Real.exp (-(1 / 2) : ℝ) = 1 := by
    rw [← Real.exp_add]
    norm_num
  have hEgt : (3 / 2 : ℝ) < Real.exp (1 / 2) := by
    have := Real.add_one_lt_exp (by norm_num : (1 / 2 : ℝ) ≠ 0)
    linarith
  have hyy : (1 / Real.sqrt 2) * (1 / Real.sqrt 2) = (1 / 2 : ℝ) := by
    rw [div_mul_div_comm, one_mul, Real.mul_self_sqrt (by norm_num : (0:ℝ) ≤ 2)]
  have hN0 : normalCDF 0 = 0.5000000005 := by
    simp only [normalCDF]
    rw [if_neg (lt_irrefl 0)]
    norm_num [pCoeff, erfPoly, a1, a2, a3, a4, a5, Real.exp_zero]
  have ht0 : (0:ℝ) ≤ 1 / (1 + pCoeff * (1 / Real.sqrt 2)) :=
    tArg_nonneg (by positivity)
  have ht1 : 1 / (1 + pCoeff * (1 / Real.sqrt 2)) ≤ 1 :=
    tArg_le_one (by positivity)
  have hP0 := erfPoly_nonneg ht0 ht1
  have hP1 := erfPoly_le_one ht0 ht1
  have hNm1 : normalCDF (-1) =
      0.5 * (erfPoly (1 / (1 + pCoeff * (1 / Real.sqrt 2))) * Real.exp (-(1 / 2))) := by
    simp only [normalCDF]
    rw [if_pos (by norm_num : (-1:ℝ) < 0)]
    rw [abs_neg, abs_one]
    rw [show -(1 / Real.sqrt 2) * (1 / Real.sqrt 2) = (-(1 / 2) : ℝ) by
      rw [neg_mul, hyy]]
    ring
  have hN1 : normalCDF 1 =
      0.5 * (1 + (1 - erfPoly (1 / (1 + pCoeff * (1 / Real.sqrt 2))) * Real.exp (-(1 / 2)))) := by
    simp only [normalCDF]
    rw [if_neg (by norm_num : ¬ (1:ℝ) < 0)]
    rw [abs_one]
    rw [show -(1 / Real.sqrt 2) * (1 / Real.sqrt 2) = (-(1 / 2) : ℝ) by
      rw [neg_mul, hyy]]
    ring
  rw [calculate_call _ _ _ _ _ (by norm_num) (by norm_num),
    calculate_put _ _ _ _ _ (by norm_num) (by norm_num)]
  dsimp only
  rw [hd1v, hd2v, hEeq]
  rw [show -(-1 : ℝ) = 1 by norm_num, show -(0 : ℝ) = 0 by norm_num]
  have hprodm1 : Real.exp (1 / 2) * normalCDF (-1) =
      0.5 * erfPoly (1 / (1 + pCoeff * (1 / Real.sqrt 2))) := by
    rw [hNm1]
    linear_combination (0.5 * erfPoly (1 / (1 + pCoeff * (1 / Real.sqrt 2)))) * hEE
  have hprod1 : Real.exp (1 / 2) * normalCDF 1 =
      Real.exp (1 / 2) - 0.5 * erfPoly (1 / (1 + pCoeff * (1 / Real.sqrt 2))) := by
    rw [hN1]
    linear_combination (-0.5 * erfPoly (1 / (1 + pCoeff * (1 / Real.sqrt 2)))) * hEE
  have hcallraw : (0:ℝ) ≤ 10000000 * normalCDF 0 -
      10000000 * Real.exp (1 / 2) * normalCDF (-1) := by
    rw [hN0]
    nlinarith [hprodm1, hP1]
  have hputraw : (0:ℝ) ≤ 10000000 * Real.exp (1 / 2) * normalCDF 1 -
      10000000 * normalCDF 0 := by
    rw [hN0]
    nlinarith [hprod1, hP1, hEgt]
  rw [max_eq_right hcallraw, max_eq_right hputraw]
  have hfinal : 10000000 * normalCDF 0 - 10000000 * Real.exp (1 / 2) * normalCDF (-1) -
      (10000000 * Real.exp (1 / 2) * normalCDF 1 - 10000000 * normalCDF 0) -
      (10000000 - 10000000 * Real.exp (1 / 2)) = 0.01 := by
    rw [hN0]
    nlinarith [hprodm1, hprod1]
  rw [hfinal]
  rw [show |(0.01:ℝ)| = 0.01 from abs_of_nonneg (by norm_num)]
  norm_num

/-- C10: for every parameter set and every fixed random stream, the
SimulationResult of `priceOption` is independent of the `style` field, which
is destructured but never used: American-style options are priced exactly as
European ones. -/
theorem c10_style_noninterference (p : MonteCarloEngine.MCParams)
    (Z : ℕ → ℕ → ℝ) (s1 s2 : String) :
    MonteCarloEngine.priceOption { p with style := s1 } Z =
      MonteCarloEngine.priceOption { p with style := s2 } Z := rfl

open MonteCarloEngine in
/-- C6: `priceOption` returns exactly the discounted sample mean of the
terminal payoffs over `paths` paths generated with drift mu = r, the
discount-scaled sample standard error (divisor paths-1), and the confidence
interval price minus and plus 1.96 times that discount-scaled standard
error. -/
theorem c6_price_option_aggregation (p : MCParams) (Z : ℕ → ℕ → ℝ)
    (hp : 2 ≤ p.paths) :
    (generatePaths p.S0 p.r p.sigma p.T p.steps p.paths Z).length = p.paths ∧
    (priceOption p Z).price = Real.exp (-p.r * p.T) * meanSpec p Z ∧
    (priceOption p Z).standardError = seSpec p Z ∧
    (priceOption p Z).lower = (priceOption p Z).price - 1.96 * seSpec p Z ∧
    (priceOption p Z).upper = (priceOption p Z).price + 1.96 * seSpec p Z := by
  refine ⟨by simp [generatePaths], ?_, ?_, ?_, ?_⟩ <;>
    simp only [priceOption, seSpec, meanSpec, payoffsSpec] <;> ring

/-- Witness for C6 with 2 paths, 1 step and the all-zero draw stream. -/
theorem c6_price_option_aggregation_witness :
    (MonteCarloEngine.generatePaths 1 0 1 1 1 2 (fun _ _ => 0)).length = 2 ∧
    (MonteCarloEngine.priceOption ⟨1, 1, 0, 1, 1, 2, 1, "call", "european"⟩
        (fun _ _ => 0)).price =
      Real.exp (-(0:ℝ) * 1) *
        MonteCarloEngine.meanSpec ⟨1, 1, 0, 1, 1, 2, 1, "call", "european"⟩ (fun _ _ => 0) ∧
    (MonteCarloEngine.priceOption ⟨1, 1, 0, 1, 1, 2, 1, "call", "european"⟩
        (fun _ _ => 0)).standardError =
      MonteCarloEngine.seSpec ⟨1, 1, 0, 1, 1, 2, 1, "call", "european"⟩ (fun _ _ => 0) ∧
    (MonteCarloEngine.priceOption ⟨1, 1, 0, 1, 1, 2, 1, "call", "european"⟩
        (fun _ _ => 0)).lower =
      (MonteCarloEngine.priceOption ⟨1, 1, 0, 1, 1, 2, 1, "call", "european"⟩
        (fun _ _ => 0)).price -
        1.96 * MonteCarloEngine.seSpec ⟨1, 1, 0, 1, 1, 2, 1, "call", "european"⟩
          (fun _ _ => 0) ∧
    (MonteCarloEngine.priceOption ⟨1, 1, 0, 1, 1, 2, 1, "call", "european"⟩
        (fun _ _ => 0)).upper =
      (MonteCarloEngine.priceOption ⟨1, 1, 0, 1, 1, 2, 1, "call", "european"⟩
        (fun _ _ => 0)).price +
        1.96 * MonteCarloEngine.seSpec ⟨1, 1, 0, 1, 1, 2, 1, "call", "european"⟩
          (fun _ _ => 0) :=
  c6_price_option_aggregation ⟨1, 1, 0, 1, 1, 2, 1, "call", "european"⟩ (fun _ _ => 0)
    (by norm_num)

open MonteCarloEngine in
/-- C7: `generatePath` returns a sequence of length steps+1 starting at S0
with all elements strictly positive, each successive element multiplying the
previous one by `exp((mu - sigma^2/2)*dt + sigma*sqrt(dt)*Z)`, `dt = T/steps`;
and `boxMuller` accepts the pair at the current position exactly when the
first uniform draw exceeds machine epsilon, otherwise rejecting it and
retrying two positions later. -/
theorem c7_generate_path_gbm (S0 mu sigma T : ℝ) (steps : ℕ) (Z : ℕ → ℝ)
    (u : ℕ → ℝ) (fuel k : ℕ) (hS0 : 0 < S0) (hT : 0 < T) (hsteps : 1 ≤ steps) :
    (generatePath S0 mu sigma T steps Z).length = steps + 1 ∧
    (generatePath S0 mu sigma T steps Z).headD 0 = S0 ∧
    (∀ x ∈ generatePath S0 mu sigma T steps Z, 0 < x) ∧
    (∀ i, i < steps →
      (generatePath S0 mu sigma T steps Z)[i + 1]? =
        ((generatePath S0 mu sigma T steps Z)[i]?).map (fun prev =>
          prev * Real.exp ((mu - sigma ^ 2 / 2) * (T / (steps : ℝ)) +
            sigma * Real.sqrt (T / (steps : ℝ)) * Z i))) ∧
    (numberEpsilon < u k →
      boxMuller u (fuel + 1) k =
        some (Real.sqrt (-2 * Real.log (u k)) * Real.cos (2 * Real.pi * u (k + 1)))) ∧
    (u k ≤ numberEpsilon → boxMuller u (fuel + 1) k = boxMuller u fuel (k + 2)) := by
  refine ⟨by simp [generatePath], ?_, ?_, ?_, ?_, ?_⟩
  · simp only [generatePath, List.range_succ_eq_map, List.map_cons, List.headD_cons]
    rfl
  · intro x hx
    simp only [generatePath, List.mem_map] at hx
    obtain ⟨i, _, rfl⟩ := hx
    exact pathPrice_pos hS0 mu sigma T steps Z i
  · intro i hi
    have h1 : i + 1 < steps + 1 := by omega
    have h2 : i < steps + 1 := by omega
    simp only [generatePath, List.getElem?_map, List.getElem?_range h1,
      List.getElem?_range h2, Option.map_some]
    have harg : (mu - 0.5 * sigma * sigma) * (T / (steps : ℝ)) +
        sigma * Real.sqrt (T / (steps : ℝ)) * Z i =
        (mu - sigma ^ 2 / 2) * (T / (steps : ℝ)) +
          sigma * Real.sqrt (T / (steps : ℝ)) * Z i := by ring
    have hpp : pathPrice S0 mu sigma T steps Z (i + 1) =
        pathPrice S0 mu sigma T steps Z i *
          Real.exp ((mu - 0.5 * sigma * sigma) * (T / (steps : ℝ)) +
            sigma * Real.sqrt (T / (steps : ℝ)) * Z i) := rfl
    show some (pathPrice S0 mu sigma T steps Z (i + 1)) =
      some (pathPrice S0 mu sigma T steps Z i *
        Real.exp ((mu - sigma ^ 2 / 2) * (T / (steps : ℝ)) +
          sigma * Real.sqrt (T / (steps : ℝ)) * Z i))
    rw [hpp, harg]
  · intro h
    simp only [boxMuller, boxMullerSeek, if_neg (not_le.mpr h)]
    rfl
  · intro h
    simp only [boxMuller, boxMullerSeek, if_pos h]

/-- Witness for C7 at S0 = 1, mu = 0, sigma = 1, T = 1, steps = 1, the
all-zero normal stream, the all-one uniform stream, fuel 1, position 0. -/
theorem c7_generate_path_gbm_witness :
    (MonteCarloEngine.generatePath 1 0 1 1 1 (fun _ => 0)).length = 1 + 1 ∧
    (MonteCarloEngine.generatePath 1 0 1 1 1 (fun _ => 0)).headD 0 = 1 ∧
    (∀ x ∈ MonteCarloEngine.generatePath 1 0 1 1 1 (fun _ => 0), 0 < x) ∧
    (∀ i, i < 1 →
      (MonteCarloEngine.generatePath 1 0 1 1 1 (fun _ => 0))[i + 1]? =
        ((MonteCarloEngine.generatePath 1 0 1 1 1 (fun _ => 0))[i]?).map (fun prev =>
          prev * Real.exp ((0 - 1 ^ 2 / 2) * (1 / ((1:ℕ) : ℝ)) +
            1 * Real.sqrt (1 / ((1:ℕ) : ℝ)) * (fun _ => (0:ℝ)) i))) ∧
    (MonteCarloEngine.numberEpsilon < (fun _ => (1:ℝ)) 0 →
      MonteCarloEngine.boxMuller (fun _ => 1) (1 + 1) 0 =
        some (Real.sqrt (-2 * Real.log ((fun _ => (1:ℝ)) 0)) *
          Real.cos (2 * Real.pi * (fun _ => (1:ℝ)) (0 + 1)))) ∧
    ((fun _ => (1:ℝ)) 0 ≤ MonteCarloEngine.numberEpsilon →
      MonteCarloEngine.boxMuller (fun _ => 1) (1 + 1) 0 =
        MonteCarloEngine.boxMuller (fun _ => 1) 1 (0 + 2)) :=
  c7_generate_path_gbm 1 0 1 1 1 (fun _ => 0) (fun _ => 1) 1 0
    (by norm_num) (by norm_num) (by norm_num)

open MonteCarloEngine in
/-- C9: for every non-empty array of paths, initialValue > 0 and confidence
level in (0,1] with VaR index at least 1, the risk metrics satisfy
conditionalVaR ≥ valueAtRisk (CVaR averages outcomes worse than the VaR
quantile). -/
theorem c9_cvar_ge_var (paths : List (List ℝ)) (confidence initialValue : ℝ)
    (hne : paths ≠ []) (hconf : 0 < confidence) (hV : 0 < initialValue)
    (hidx : 1 ≤ ⌊(paths.length : ℝ) * (1 - confidence)⌋) :
    ∃ va cv,
      (calculateRiskMetrics paths confidence initialValue).valueAtRisk = some va ∧
      (calculateRiskMetrics paths confidence initialValue).conditionalVaR = some cv ∧
      va ≤ cv := by
  obtain ⟨s, hsSorted, hslen, hEq⟩ := calculateRiskMetrics_spec paths confidence initialValue
  rw [hEq]
  rw [hslen]
  have hN1 : 1 ≤ paths.length := List.length_pos.mpr hne
  have hv0 : (0:ℤ) ≤ ⌊(paths.length : ℝ) * (1 - confidence)⌋ := by omega
  have hvN : ⌊(paths.length : ℝ) * (1 - confidence)⌋ < (paths.length : ℤ) := by
    rw [Int.floor_lt]
    push_cast
    have hNpos : (0:ℝ) < (paths.length : ℝ) := by exact_mod_cast hN1
    nlinarith
  have hvNat : (⌊(paths.length : ℝ) * (1 - confidence)⌋).toNat < s.length := by
    rw [hslen]
    omega
  have hget : s[(⌊(paths.length : ℝ) * (1 - confidence)⌋).toNat]? =
      some (s.get ⟨(⌊(paths.length : ℝ) * (1 - confidence)⌋).toNat, hvNat⟩) := by
    rw [List.getElem?_eq_getElem hvNat]
    rfl
  refine ⟨-(s.get ⟨(⌊(paths.length : ℝ) * (1 - confidence)⌋).toNat, hvNat⟩) * initialValue,
    -(jsSliceTo s ⌊(paths.length : ℝ) * (1 - confidence)⌋).sum /
      ((⌊(paths.length : ℝ) * (1 - confidence)⌋ : ℤ) : ℝ) * initialValue, ?_, ?_, ?_⟩
  · rw [if_pos hv0, hget]
    rfl
  · rw [if_neg (show ¬⌊(paths.length : ℝ) * (1 - confidence)⌋ = 0 by omega)]
  · have hslice : jsSliceTo s ⌊(paths.length : ℝ) * (1 - confidence)⌋ =
        s.take (⌊(paths.length : ℝ) * (1 - confidence)⌋).toNat := by
      simp only [jsSliceTo, if_pos hv0]
    rw [hslice]
    have hsum := sum_take_le_get hsSorted hvNat
    have hcast : (((⌊(paths.length : ℝ) * (1 - confidence)⌋).toNat : ℕ) : ℝ) =
        ((⌊(paths.length : ℝ) * (1 - confidence)⌋ : ℤ) : ℝ) := by
      exact_mod_cast congrArg (fun z : ℤ => (z : ℝ)) (Int.toNat_of_nonneg hv0)
    have hvpos : (0:ℝ) < ((⌊(paths.length : ℝ) * (1 - confidence)⌋ : ℤ) : ℝ) := by
      exact_mod_cast (by omega : (0:ℤ) < ⌊(paths.length : ℝ) * (1 - confidence)⌋)
    rw [hcast] at hsum
    have hdiv : (s.take (⌊(paths.length : ℝ) * (1 - confidence)⌋).toNat).sum /
        ((⌊(paths.length : ℝ) * (1 - confidence)⌋ : ℤ) : ℝ) ≤
        s.get ⟨(⌊(paths.length : ℝ) * (1 - confidence)⌋).toNat, hvNat⟩ := by
      rw [div_le_iff hvpos]
      linarith [hsum]
    have := neg_le_neg hdiv
    rw [← neg_div] at this
    exact mul_le_mul_of_nonneg_right this hV.le

/-- Witness for C9 with two paths, confidence 0.4, initial value 1 (so the
VaR index is floor(2*0.6) = 1). -/
theorem c9_cvar_ge_var_witness :
    ∃ va cv,
      (MonteCarloEngine.calculateRiskMetrics [[1, 2], [1, 3]] 0.4 1).valueAtRisk = some va ∧
      (MonteCarloEngine.calculateRiskMetrics [[1, 2], [1, 3]] 0.4 1).conditionalVaR = some cv ∧
      va ≤ cv :=
  c9_cvar_ge_var [[1, 2], [1, 3]] 0.4 1 (by simp) (by norm_num) (by norm_num)
    (by
      rw [Int.le_floor]
      norm_num)

open MonteCarloEngine in
/-- C1 (the guard the spec mandates is absent): with a single path and
confidence 0.95 the VaR index is floor(1*0.05) = 0 and the code divides 0 by
0; the conditionalVaR field is the NaN modelled by `none`, not a finite
sentinel. -/
theorem c1_cvar_nan_at_zero_index :
    (calculateRiskMetrics [[1, 2]] 0.95 100).conditionalVaR = none := by
  obtain ⟨s, _, hslen, hEq⟩ := calculateRiskMetrics_spec [[1, 2]] 0.95 100
  have hfloor : ⌊(([[(1:ℝ), 2]].length : ℕ) : ℝ) * (1 - 0.95)⌋ = 0 := by
    rw [show (([[(1:ℝ), 2]].length : ℕ) : ℝ) = 1 by norm_num]
    rw [Int.floor_eq_zero_iff]
    refine Set.mem_Ico.mpr ⟨by norm_num, by norm_num⟩
  rw [hEq, hslen, if_pos hfloor]

open PortfolioOptimizer in
/-- C2 counterexample: with one asset, covariance [[200]] and target return 1,
the first gradient step drives the weight to -1, the clamp makes it 0, and the
renormalization divides by a zero sum (NaN in JavaScript, 0 in this model);
the returned weights do not sum to 1 within 1e-6. -/
theorem c2_feasibility_counterexample :
    ¬ ((∀ x ∈ optimizePortfolio [0] [[200]] 1 ⟨true, true⟩, 0 ≤ x) ∧
      |(optimizePortfolio [0] [[200]] 1 ⟨true, true⟩).sum - 1| ≤ 1e-6) := by
  have hres : optimizePortfolio [0] [[200]] 1 ⟨true, true⟩ = [0] := by
    have hinit : List.replicate ([(0:ℝ)] : List ℝ).length
        (1 / ((([(0:ℝ)] : List ℝ).length : ℕ) : ℝ)) = [1] := by
      norm_num
    simp only [optimizePortfolio, hinit]
    rw [show (1000 : ℕ) = 999 + 1 from rfl]
    have hstep1 : optStep [[200]] ⟨true, true⟩ [1] = [0] := by
      simp [optStep, calculateGradients, List.range_succ]
      norm_num
    have hcur : currentReturn [0] [0] = 0 := by
      simp [currentReturn, List.range_succ]
    show (if |currentReturn (optStep [[200]] ⟨true, true⟩ [1]) [0] - 1| < 0.0001
        then optStep [[200]] ⟨true, true⟩ [1]
        else optLoop [0] [[200]] 1 ⟨true, true⟩ 999
          (optStep [[200]] ⟨true, true⟩ [1])) = [0]
    rw [hstep1, hcur]
    rw [if_neg (by norm_num)]
    exact optLoop_zero_fix 999
  rw [hres]
  rintro ⟨-, habs⟩
  simp only [List.sum_cons, List.sum_nil] at habs
  norm_num at habs

open PortfolioOptimizer in
/-- C2, amended: for matching dimensions n ≥ 1 and covariance entries bounded
by some c with n*c < 100 (which keeps the post-clamp weight sum positive, so
the renormalization never divides by zero), `optimizePortfolio` with
{sumToOne, nonNegative} returns n weights that are all nonnegative and sum to
1 exactly (hence within 1e-6), whether or not the target return was reached.
Without the bound the clamp can zero out every weight and the division by the
zero sum produces NaN (see the counterexample). -/
theorem c2_optimizer_feasibility (returns : List ℝ) (cov : List (List ℝ))
    (targetReturn c : ℝ) (n : ℕ) (hn : 1 ≤ n)
    (hretlen : returns.length = n) (hcovlen : cov.length = n)
    (hrowlen : ∀ row ∈ cov, row.length = n)
    (hcovle : ∀ row ∈ cov, ∀ x ∈ row, x ≤ c) (hc : (n : ℝ) * c < 100) :
    (optimizePortfolio returns cov targetReturn ⟨true, true⟩).length = n ∧
    (∀ x ∈ optimizePortfolio returns cov targetReturn ⟨true, true⟩, 0 ≤ x) ∧
    |(optimizePortfolio returns cov targetReturn ⟨true, true⟩).sum - 1| ≤ 1e-6 := by
  have hnpos : (0:ℝ) < ((returns.length : ℕ) : ℝ) := by
    rw [hretlen]
    exact_mod_cast hn
  have hinit_len : (List.replicate returns.length
      (1 / ((returns.length : ℕ) : ℝ))).length = n := by
    rw [List.length_replicate, hretlen]
  have hinit_nonneg : ∀ x ∈ List.replicate returns.length
      (1 / ((returns.length : ℕ) : ℝ)), 0 ≤ x := by
    intro x hx
    rw [List.eq_of_mem_replicate hx]
    positivity
  have hinit_sum : (List.replicate returns.length
      (1 / ((returns.length : ℕ) : ℝ))).sum = 1 := by
    rw [List.sum_replicate, nsmul_eq_mul]
    field_simp
  obtain ⟨r1, r2, r3⟩ := optLoop_preserves hcovlen hrowlen hcovle hc 1000 _
    hinit_len hinit_nonneg hinit_sum
  refine ⟨r1, r2, ?_⟩
  have : (optLoop returns cov targetReturn ⟨true, true⟩ 1000
      (List.replicate returns.length (1 / ((returns.length : ℕ) : ℝ)))).sum = 1 := r3
  show |(optLoop returns cov targetReturn ⟨true, true⟩ 1000
      (List.replicate returns.length (1 / ((returns.length : ℕ) : ℝ)))).sum - 1| ≤ 1e-6
  rw [this]
  norm_num

/-- Witness for C2 (amended) with one asset, returns [0.1], covariance
[[0.04]], bound c = 0.04 (1 * 0.04 < 100). -/
theorem c2_optimizer_feasibility_witness :
    (PortfolioOptimizer.optimizePortfolio [0.1] [[0.04]] 0.1 ⟨true, true⟩).length = 1 ∧
    (∀ x ∈ PortfolioOptimizer.optimizePortfolio [0.1] [[0.04]] 0.1 ⟨true, true⟩, 0 ≤ x) ∧
    |(PortfolioOptimizer.optimizePortfolio [0.1] [[0.04]] 0.1 ⟨true, true⟩).sum - 1| ≤ 1e-6 :=
  c2_optimizer_feasibility [0.1] [[0.04]] 0.1 0.04 1 le_rfl rfl rfl
    (by
      intro row hr
      rw [List.mem_singleton] at hr
      rw [hr]
      rfl)
    (by
      intro row hr x hx
      rw [List.mem_singleton] at hr
      subst hr
      rw [List.mem_singleton] at hx
      rw [hx])
    (by norm_num)

open PortfolioOptimizer in
/-- C8: `generateEfficientFrontier` returns exactly `points` FrontierPoints;
the i-th one is built from one `optimizePortfolio` call at target return
`min(returns) + i*(max(returns)-min(returns))/(points-1)`, carrying the
corresponding `calculatePortfolioMetrics` return and risk and the Sharpe
ratio `(return - riskFreeRate)/risk`; the targets are equally spaced,
inclusive of min and max, and ascending. -/
theorem c8_efficient_frontier (returns : List ℝ) (cov : List (List ℝ))
    (riskFreeRate : ℝ) (points : ℕ) (hne : returns ≠ []) (hp : 2 ≤ points) :
    (generateEfficientFrontier returns cov riskFreeRate points).length = points ∧
    (∀ i, i < points →
      (generateEfficientFrontier returns cov riskFreeRate points)[i]? =
        some { weights := optimizePortfolio returns cov
                 (targetReturnAt returns points i) ⟨true, true⟩
               ret := (calculatePortfolioMetrics (optimizePortfolio returns cov
                 (targetReturnAt returns points i) ⟨true, true⟩) returns cov).ret
               risk := (calculatePortfolioMetrics (optimizePortfolio returns cov
                 (targetReturnAt returns points i) ⟨true, true⟩) returns cov).risk
               sharpe := ((calculatePortfolioMetrics (optimizePortfolio returns cov
                   (targetReturnAt returns points i) ⟨true, true⟩) returns cov).ret -
                 riskFreeRate) / (calculatePortfolioMetrics (optimizePortfolio returns cov
                   (targetReturnAt returns points i) ⟨true, true⟩) returns cov).risk }) ∧
    targetReturnAt returns points 0 = listMin returns ∧
    targetReturnAt returns points (points - 1) = listMax returns ∧
    (∀ i j : ℕ, i ≤ j →
      targetReturnAt returns points i ≤ targetReturnAt returns points j) := by
  have hp1 : ((points - 1 : ℕ) : ℝ) = (points : ℝ) - 1 := by
    rw [Nat.cast_sub (by omega : 1 ≤ points)]
    norm_num
  have hp2 : ((points : ℕ) : ℝ) - 1 ≠ 0 := by
    have h2 : (2:ℝ) ≤ ((points : ℕ) : ℝ) := by exact_mod_cast hp
    linarith
  refine ⟨by simp [generateEfficientFrontier], ?_, ?_, ?_, ?_⟩
  · intro i hi
    simp only [generateEfficientFrontier, List.getElem?_map, List.getElem?_range hi]
    rfl
  · simp [targetReturnAt]
  · simp only [targetReturnAt, hp1]
    field_simp
  · intro i j hij
    simp only [targetReturnAt]
    have hstep : 0 ≤ (listMax returns - listMin returns) / (((points : ℕ) : ℝ) - 1) := by
      apply div_nonneg
      · linarith [listMin_le_listMax hne]
      · have h2 : (2:ℝ) ≤ ((points : ℕ) : ℝ) := by exact_mod_cast hp
        linarith
    have hij' : ((i : ℕ) : ℝ) ≤ ((j : ℕ) : ℝ) := by exact_mod_cast hij
    have := mul_le_mul_of_nonneg_right hij' hstep
    linarith

/-- Witness for C8 with returns [0.1, 0.2], identity-like covariance, zero
risk-free rate and 2 frontier points. -/
theorem c8_efficient_frontier_witness :
    (PortfolioOptimizer.generateEfficientFrontier [0.1, 0.2] [[1, 0], [0, 1]] 0 2).length = 2 ∧
    (∀ i, i < 2 →
      (PortfolioOptimizer.generateEfficientFrontier [0.1, 0.2] [[1, 0], [0, 1]] 0 2)[i]? =
        some { weights := PortfolioOptimizer.optimizePortfolio [0.1, 0.2] [[1, 0], [0, 1]]
                 (PortfolioOptimizer.targetReturnAt [0.1, 0.2] 2 i) ⟨true, true⟩
               ret := (PortfolioOptimizer.calculatePortfolioMetrics
                 (PortfolioOptimizer.optimizePortfolio [0.1, 0.2] [[1, 0], [0, 1]]
                   (PortfolioOptimizer.targetReturnAt [0.1, 0.2] 2 i) ⟨true, true⟩)
                 [0.1, 0.2] [[1, 0], [0, 1]]).ret
               risk := (PortfolioOptimizer.calculatePortfolioMetrics
                 (PortfolioOptimizer.optimizePortfolio [0.1, 0.2] [[1, 0], [0, 1]]
                   (PortfolioOptimizer.targetReturnAt [0.1, 0.2] 2 i) ⟨true, true⟩)
                 [0.1, 0.2] [[1, 0], [0, 1]]).risk
               sharpe := ((PortfolioOptimizer.calculatePortfolioMetrics
                   (PortfolioOptimizer.optimizePortfolio [0.1, 0.2] [[1, 0], [0, 1]]
                     (PortfolioOptimizer.targetReturnAt [0.1, 0.2] 2 i) ⟨true, true⟩)
                   [0.1, 0.2] [[1, 0], [0, 1]]).ret - 0) /
                 (PortfolioOptimizer.calculatePortfolioMetrics
                   (PortfolioOptimizer.optimizePortfolio [0.1, 0.2] [[1, 0], [0, 1]]
                     (PortfolioOptimizer.targetReturnAt [0.1, 0.2] 2 i) ⟨true, true⟩)
                   [0.1, 0.2] [[1, 0], [0, 1]]).risk }) ∧
    PortfolioOptimizer.targetReturnAt [0.1, 0.2] 2 0 =
      PortfolioOptimizer.listMin [0.1, 0.2] ∧
    PortfolioOptimizer.targetReturnAt [0.1, 0.2] 2 (2 - 1) =
      PortfolioOptimizer.listMax [0.1, 0.2] ∧
    (∀ i j : ℕ, i ≤ j →
      PortfolioOptimizer.targetReturnAt [0.1, 0.2] 2 i ≤
        PortfolioOptimizer.targetReturnAt [0.1, 0.2] 2 j) :=
  c8_efficient_frontier [0.1, 0.2] [[1, 0], [0, 1]] 0 2 (by simp) (by norm_num)

end
